import Mathlib

/-!
Verification of the hotel room registry (`hotel_management_system.py`).

The program keeps an in-memory list of rooms and persists it to a single
delimited text file.  We embed Python strings as `List Char`, the backing
file as an explicit `fileContent` field of the store state, and each public
operation of `HotelManagementSystem` as a pure state transformer.  The
Python string primitives used by the program (`str.split` with a one-char
separator, `str.join`, `str.strip`, `file.readlines`) are reimplemented
with Python semantics.
-/

namespace Hotel

/-- Python strings are modelled as lists of characters. -/
abbrev Str := List Char

/-- The characters stripped by Python `str.strip()`: the full Unicode
whitespace set of `str.isspace()` — ASCII tab/newline/vertical-tab/form
feed/carriage return/space, the file/group/record/unit separators
U+001C–U+001F, NEL U+0085, and the Unicode space separators NBSP U+00A0,
U+1680, U+2000–U+200A, U+2028, U+2029, U+202F, U+205F and U+3000. -/
def pyIsSpace (c : Char) : Bool :=
  c = ' ' || c = '\t' || c = '\n' || c = '\x0b' || c = '\x0c' || c = '\x0d' ||
  c = '\x1c' || c = '\x1d' || c = '\x1e' || c = '\x1f' || c = '\x85' ||
  c = '\u00a0' || c = '\u1680' ||
  c = '\u2000' || c = '\u2001' || c = '\u2002' || c = '\u2003' ||
  c = '\u2004' || c = '\u2005' || c = '\u2006' || c = '\u2007' ||
  c = '\u2008' || c = '\u2009' || c = '\u200a' ||
  c = '\u2028' || c = '\u2029' || c = '\u202f' || c = '\u205f' || c = '\u3000'

/-- Python `s.strip()`: remove leading and trailing whitespace. -/
def pyStrip (l : Str) : Str :=
  ((l.dropWhile pyIsSpace).reverse.dropWhile pyIsSpace).reverse

/-- Python `s.split(c)` for a one-character separator `c`:
splits at every occurrence of `c`; the empty string yields `[""]`. -/
def splitOnChar (c : Char) : Str → List Str
  | [] => [[]]
  | x :: xs =>
    match splitOnChar c xs with
    | [] => [[]]
    | y :: ys => if x = c then [] :: y :: ys else (x :: y) :: ys

/-- Python `c.join(parts)` for a one-character separator. -/
def joinChar (c : Char) : List Str → Str
  | [] => []
  | [f] => f
  | f :: f2 :: fs => f ++ c :: joinChar c (f2 :: fs)

/-- Split a newline-translated stream into lines, each line keeping its
trailing newline; a final fragment without a newline is kept. -/
def splitLinesNL : Str → List Str
  | [] => []
  | x :: xs =>
    match splitLinesNL xs with
    | [] => [[x]]
    | y :: ys => if x = '\n' then [x] :: y :: ys else (x :: y) :: ys

/-- Python text-mode universal-newline translation: on reading, each
`\r\n` pair and each lone `\r` becomes a single `\n`. -/
def pyTranslateNewlines : Str → Str
  | [] => []
  | x :: xs =>
    if x = '\x0d' then
      match xs with
      | y :: ys =>
        if y = '\n' then '\n' :: pyTranslateNewlines ys
        else '\n' :: pyTranslateNewlines (y :: ys)
      | [] => ['\n']
    else x :: pyTranslateNewlines xs

/-- Python `file.readlines()` on a file opened in text mode: universal
newlines are translated first, then the stream is split into lines. -/
def pyReadLines (l : Str) : List Str :=
  splitLinesNL (pyTranslateNewlines l)

/-- The `Room` record of the program: `__init__` sets `is_allocated = False`
and `customer_name = ""`; load/allocate may overwrite them. -/
structure Room where
  room_number : Str
  features : List Str
  is_allocated : Bool
  customer_name : Str
deriving DecidableEq

/-- Python `f"{b}"` for a boolean: the literal strings `True` / `False`. -/
def boolStr (b : Bool) : Str :=
  if b then ['T', 'r', 'u', 'e'] else ['F', 'a', 'l', 's', 'e']

/-- The record that `save_data` writes for one room (without the trailing
newline): `room_number|feature1,feature2,...|is_allocated|customer_name`. -/
def roomLine (r : Room) : Str :=
  r.room_number ++ '|' :: (joinChar ',' r.features ++ '|' ::
    (boolStr r.is_allocated ++ '|' :: r.customer_name))

/-- `save_data`: the file content written for a list of rooms, one
newline-terminated record per room. -/
def save_data : List Room → Str
  | [] => []
  | r :: rs => roomLine r ++ '\n' :: save_data rs

/-- One iteration of the `load_data` loop: strip the line, split on `|`,
and build the room from fields 0..3 (extra fields are ignored).  Fewer than
four fields raises `IndexError` in the source, modelled as `none`. -/
def parseLine (line : Str) : Option Room :=
  match splitOnChar '|' (pyStrip line) with
  | p0 :: p1 :: p2 :: p3 :: _ =>
    some { room_number := p0, features := splitOnChar ',' p1,
           is_allocated := decide (p2 = ['T', 'r', 'u', 'e']),
           customer_name := p3 }
  | _ => none

/-- The `load_data` loop over the lines of the file.  The `IndexError` of a
malformed line is caught outside the loop, so a failing line stops the loop
and keeps the rooms appended so far. -/
def load_lines (acc : List Room) : List Str → List Room
  | [] => acc
  | l :: ls =>
    match parseLine l with
    | none => acc
    | some r => load_lines (acc ++ [r]) ls

/-- `load_data`: read the file's lines and append the parsed rooms to the
rooms already in memory (`self.rooms` is not cleared first). -/
def load_data (content : Str) (acc : List Room) : List Room :=
  load_lines acc (pyReadLines content)

/-- The observable state of a `HotelManagementSystem`: the in-memory room
list, the content of the backing file, and the backup files written so far
(name and content). -/
structure Store where
  rooms : List Room
  fileContent : Str
  backups : List (Str × Str)
deriving DecidableEq

/-- The three printed outcomes of `allocate_room`. -/
inductive AllocOutcome
  | allocated
  | alreadyAllocated
  | notFound
deriving DecidableEq

/-- The `allocate_room` loop over the room list: the first room whose
number matches decides the outcome; only it can be mutated. -/
def allocateList (number cname : Str) : List Room → List Room × AllocOutcome
  | [] => ([], .notFound)
  | r :: rs =>
    if r.room_number = number then
      if r.is_allocated then
        (r :: rs, .alreadyAllocated)
      else
        ({ r with is_allocated := true, customer_name := cname } :: rs, .allocated)
    else
      let p := allocateList number cname rs
      (r :: p.1, p.2)

/-- `allocate_room`: run the loop; `save_data` is called only on the
successful-allocation path. -/
def allocate_room (number cname : Str) (st : Store) : Store × AllocOutcome :=
  let p := allocateList number cname st.rooms
  if p.2 = .allocated then
    ({ st with rooms := p.1, fileContent := save_data p.1 }, p.2)
  else
    ({ st with rooms := p.1 }, p.2)

/-- The two printed outcomes of `bill_and_deallocate`. -/
inductive BillOutcome
  | deallocated
  | notFoundOrNotAllocated
deriving DecidableEq

/-- The `bill_and_deallocate` loop: the first room whose number matches and
which is allocated is deallocated and its customer name cleared. -/
def billList (number : Str) : List Room → List Room × BillOutcome
  | [] => ([], .notFoundOrNotAllocated)
  | r :: rs =>
    if r.room_number = number ∧ r.is_allocated then
      ({ r with is_allocated := false, customer_name := [] } :: rs, .deallocated)
    else
      let p := billList number rs
      (r :: p.1, p.2)

/-- `bill_and_deallocate`: run the loop; `save_data` is called only on the
deallocation path, the not-found path writes nothing. -/
def bill_and_deallocate (number : Str) (st : Store) : Store × BillOutcome :=
  let p := billList number st.rooms
  if p.2 = .deallocated then
    ({ st with rooms := p.1, fileContent := save_data p.1 }, p.2)
  else
    ({ st with rooms := p.1 }, p.2)

/-- `delete_room`: keep the rooms whose number differs, save, and print the
success message unconditionally (second component). -/
def delete_room (number : Str) (st : Store) : Store × Str :=
  let rooms2 := st.rooms.filter (fun r => decide (r.room_number ≠ number))
  ({ st with rooms := rooms2, fileContent := save_data rooms2 },
   ['R', 'o', 'o', 'm', ' '] ++ number ++
     " is successfully deleted.".toList)

/-- The dynamically-typed `features` argument of `add_room`: either an
actual Python list of strings, or a value of any other runtime type. -/
inductive FeaturesArg
  | ofList (l : List Str)
  | notAList
deriving DecidableEq

/-- The two outcomes of `add_room`. -/
inductive AddOutcome
  | added
  | typeError
deriving DecidableEq

/-- `add_room`: a non-list `features` raises `TypeError` before any
mutation; otherwise append one new unallocated room and save.  No
uniqueness check on room numbers is performed. -/
def add_room (number : Str) (features : FeaturesArg) (st : Store) :
    Store × AddOutcome :=
  match features with
  | .notAList => (st, .typeError)
  | .ofList fs =>
    let rooms2 := st.rooms ++
      [{ room_number := number, features := fs,
         is_allocated := false, customer_name := [] }]
    ({ st with rooms := rooms2, fileContent := save_data rooms2 }, .added)

/-- `save_room_allocation_to_file`: just calls `save_data`. -/
def save_room_allocation_to_file (st : Store) : Store :=
  { st with fileContent := save_data st.rooms }

/-- The backup file name: fixed prefix and extension around the timestamp. -/
def backupName (ts : Str) : Str :=
  "LHMS_764708175_Backup_".toList ++ ts ++ ".txt".toList

/-- `backup_file` (with the timestamp string as a parameter): copy the
backing file's content into a new backup file, then truncate the backing
file to empty.  The in-memory room list is untouched. -/
def backup_file (ts : Str) (st : Store) : Store :=
  { rooms := st.rooms,
    fileContent := [],
    backups := st.backups ++ [(backupName ts, st.fileContent)] }

/-- One call of a mutation sequence (for the allocate/deallocate
invariant). -/
inductive Call
  | alloc (number cname : Str)
  | bill (number : Str)

/-- Apply one call to the store, discarding the printed outcome. -/
def applyCall (st : Store) : Call → Store
  | .alloc n c => (allocate_room n c st).1
  | .bill n => (bill_and_deallocate n st).1

/-- Apply a sequence of allocate/deallocate calls in order. -/
def applyCalls (st : Store) (cs : List Call) : Store :=
  cs.foldl applyCall st

/-- The spec's room invariant: allocated rooms have a non-empty customer
name, unallocated rooms have an empty one. -/
def roomInv (r : Room) : Prop :=
  (r.is_allocated = true → r.customer_name ≠ []) ∧
  (r.is_allocated = false → r.customer_name = [])

instance (r : Room) : Decidable (roomInv r) := by
  unfold roomInv
  infer_instance

/-- A call with an admissible argument: an `allocate_room` call whose
customer name is non-empty (any `bill_and_deallocate` call qualifies). -/
def callNameOk : Call → Prop
  | .alloc _ cname => cname ≠ []
  | .bill _ => True

instance (c : Call) : Decidable (callNameOk c) := by
  cases c <;> {unfold callNameOk; infer_instance}

/-- The well-formedness condition stated by claim C1: no `|` or `,` in the
room number, the features, or the customer name. -/
def claimNoDelims (r : Room) : Prop :=
  ( '|' ∉ r.room_number ∧ ',' ∉ r.room_number) ∧
  (∀ f ∈ r.features, '|' ∉ f ∧ ',' ∉ f) ∧
  ( '|' ∉ r.customer_name ∧ ',' ∉ r.customer_name)

instance (r : Room) : Decidable (claimNoDelims r) := by
  unfold claimNoDelims
  infer_instance

/-- The first character (if any) is not Python whitespace. -/
def noLeadingWS (l : Str) : Prop :=
  ∀ x ∈ l.take 1, pyIsSpace x = false

instance (l : Str) : Decidable (noLeadingWS l) := by
  unfold noLeadingWS
  infer_instance

/-- Rooms that survive the save/load round trip: claim C1's no-delimiter
condition, plus a non-empty feature list, no newline and no carriage
return in any field (text mode reads both as line endings), no leading
whitespace in the room number, and no trailing whitespace in the customer
name (in the `str.strip()` sense). -/
def wfRoom (r : Room) : Prop :=
  claimNoDelims r ∧
  r.features ≠ [] ∧
  ( '\n' ∉ r.room_number ∧ (∀ f ∈ r.features, '\n' ∉ f) ∧
    '\n' ∉ r.customer_name) ∧
  ( '\x0d' ∉ r.room_number ∧ (∀ f ∈ r.features, '\x0d' ∉ f) ∧
    '\x0d' ∉ r.customer_name) ∧
  noLeadingWS r.room_number ∧
  noLeadingWS r.customer_name.reverse

instance (r : Room) : Decidable (wfRoom r) := by
  unfold wfRoom
  infer_instance

/-! ### String-level lemmas -/

theorem splitOnChar_ne_nil (c : Char) : ∀ l : Str, splitOnChar c l ≠ []
  | [] => by simp [splitOnChar]
  | x :: xs => by
    cases h : splitOnChar c xs with
    | nil => simp [splitOnChar, h]
    | cons y ys =>
      simp only [splitOnChar, h]
      split <;> simp

theorem splitOnChar_of_not_mem (c : Char) :
    ∀ l : Str, c ∉ l → splitOnChar c l = [l]
  | [], _ => rfl
  | x :: xs, h => by
    have hx : ¬ x = c := fun e => h (e ▸ List.mem_cons_self x xs)
    have ih := splitOnChar_of_not_mem c xs (fun hc => h (List.mem_cons_of_mem x hc))
    simp [splitOnChar, ih, hx]

theorem splitOnChar_append (c : Char) :
    ∀ (a b : Str), c ∉ a → splitOnChar c (a ++ c :: b) = a :: splitOnChar c b
  | [], b, _ => by
    cases hb : splitOnChar c b with
    | nil => exact absurd hb (splitOnChar_ne_nil c b)
    | cons y ys => simp [splitOnChar, hb]
  | x :: a, b, h => by
    have hx : ¬ x = c := fun e => h (e ▸ List.mem_cons_self x a)
    have ih := splitOnChar_append c a b (fun hc => h (List.mem_cons_of_mem x hc))
    simp [splitOnChar, List.cons_append, ih, hx]

theorem not_mem_joinChar (x c : Char) (hx : x ≠ c) :
    ∀ fs : List Str, (∀ f ∈ fs, x ∉ f) → x ∉ joinChar c fs
  | [], _ => by simp [joinChar]
  | [f], h => by
    simp only [joinChar]
    exact h f (by simp)
  | f :: f2 :: fs, h => by
    have ih := not_mem_joinChar x c hx (f2 :: fs)
      (fun g hg => h g (List.mem_cons_of_mem f hg))
    have hf := h f (by simp)
    simp only [joinChar, List.mem_append, List.mem_cons]
    rintro (hmem | rfl | hmem)
    · exact hf hmem
    · exact hx rfl
    · exact ih hmem

theorem splitOnChar_joinChar (c : Char) :
    ∀ fs : List Str, fs ≠ [] → (∀ f ∈ fs, c ∉ f) →
      splitOnChar c (joinChar c fs) = fs
  | [], h, _ => absurd rfl h
  | [f], _, h => by
    simp only [joinChar]
    exact splitOnChar_of_not_mem c f (h f (by simp))
  | f :: f2 :: fs, _, h => by
    have ih := splitOnChar_joinChar c (f2 :: fs) (by simp)
      (fun g hg => h g (List.mem_cons_of_mem f hg))
    rw [joinChar, splitOnChar_append c f _ (h f (by simp)), ih]

theorem splitLinesNL_cons_newline (rest : Str) :
    splitLinesNL ('\n' :: rest) = ['\n'] :: splitLinesNL rest := by
  cases h : splitLinesNL rest with
  | nil => simp [splitLinesNL, h]
  | cons y ys => simp [splitLinesNL, h]

theorem splitLinesNL_append (l rest : Str) (h : '\n' ∉ l) :
    splitLinesNL (l ++ '\n' :: rest) = (l ++ ['\n']) :: splitLinesNL rest := by
  induction l with
  | nil => simpa using splitLinesNL_cons_newline rest
  | cons x xs ih =>
    have hx : ¬ x = '\n' := fun e => h (e ▸ List.mem_cons_self x xs)
    have ih' := ih (fun hc => h (List.mem_cons_of_mem x hc))
    simp [splitLinesNL, List.cons_append, ih', hx]

theorem pyTranslateNewlines_of_not_mem :
    ∀ l : Str, '\x0d' ∉ l → pyTranslateNewlines l = l
  | [], _ => rfl
  | x :: xs, h => by
    have hx : ¬ x = '\x0d' := fun e => h (e ▸ List.mem_cons_self x xs)
    have ih := pyTranslateNewlines_of_not_mem xs
      (fun hc => h (List.mem_cons_of_mem x hc))
    rw [pyTranslateNewlines.eq_def]
    simp only [if_neg hx, ih]

theorem dropWhile_eq_self_of_head (p : Char → Bool) (l : Str)
    (h : ∀ x ∈ l.take 1, p x = false) : l.dropWhile p = l := by
  cases l with
  | nil => rfl
  | cons x xs => simp [List.dropWhile_cons, h x (by simp)]

theorem noLeadingWS_append (a b : Str) (ha : noLeadingWS a) (hb : noLeadingWS b) :
    noLeadingWS (a ++ b) := by
  cases a with
  | nil => simpa using hb
  | cons x xs =>
    intro y hy
    simp at hy
    exact hy ▸ ha x (by simp)

theorem pyStrip_append_newline (l : Str) (h1 : noLeadingWS l)
    (h2 : noLeadingWS l.reverse) : pyStrip (l ++ ['\n']) = l := by
  cases l with
  | nil => rfl
  | cons x xs =>
    unfold pyStrip
    rw [dropWhile_eq_self_of_head pyIsSpace (x :: xs ++ ['\n'])
      (by intro y hy; simp at hy; exact hy ▸ h1 x (by simp))]
    rw [List.reverse_append]
    have : (['\n'].reverse ++ (x :: xs).reverse).dropWhile pyIsSpace
        = (x :: xs).reverse.dropWhile pyIsSpace := by
      simp [List.dropWhile_cons, pyIsSpace]
    rw [this, dropWhile_eq_self_of_head pyIsSpace (x :: xs).reverse h2,
      List.reverse_reverse]

/-! ### Round-trip lemmas -/

theorem not_mem_boolStr_pipe (b : Bool) : '|' ∉ boolStr b := by
  cases b <;> decide

theorem not_mem_boolStr_newline (b : Bool) : '\n' ∉ boolStr b := by
  cases b <;> decide

theorem not_mem_boolStr_comma (b : Bool) : ',' ∉ boolStr b := by
  cases b <;> decide

theorem not_mem_boolStr_cr (b : Bool) : '\x0d' ∉ boolStr b := by
  cases b <;> decide

theorem noLeadingWS_cons (x : Char) (l : Str) (h : pyIsSpace x = false) :
    noLeadingWS (x :: l) := by
  intro y hy
  rw [show List.take 1 (x :: l) = [x] from rfl] at hy
  simp at hy
  exact hy ▸ h

theorem roomLine_not_mem_newline (r : Room) (h : wfRoom r) : '\n' ∉ roomLine r := by
  obtain ⟨-, -, ⟨hn1, hn2, hn3⟩, -, -, -⟩ := h
  have hjoin : '\n' ∉ joinChar ',' r.features :=
    not_mem_joinChar '\n' ',' (by decide) r.features hn2
  simp only [roomLine, List.mem_append, List.mem_cons]
  rintro (hc | hc | hc | hc | hc | hc | hc)
  · exact hn1 hc
  · exact absurd hc (by decide)
  · exact hjoin hc
  · exact absurd hc (by decide)
  · exact not_mem_boolStr_newline r.is_allocated hc
  · exact absurd hc (by decide)
  · exact hn3 hc

theorem roomLine_not_mem_cr (r : Room) (h : wfRoom r) : '\x0d' ∉ roomLine r := by
  obtain ⟨-, -, -, ⟨hr1, hr2, hr3⟩, -, -⟩ := h
  have hjoin : '\x0d' ∉ joinChar ',' r.features :=
    not_mem_joinChar '\x0d' ',' (by decide) r.features hr2
  simp only [roomLine, List.mem_append, List.mem_cons]
  rintro (hc | hc | hc | hc | hc | hc | hc)
  · exact hr1 hc
  · exact absurd hc (by decide)
  · exact hjoin hc
  · exact absurd hc (by decide)
  · exact not_mem_boolStr_cr r.is_allocated hc
  · exact absurd hc (by decide)
  · exact hr3 hc

theorem noLeadingWS_roomLine (r : Room) (h : wfRoom r) : noLeadingWS (roomLine r) := by
  obtain ⟨-, -, -, -, hnum, -⟩ := h
  exact noLeadingWS_append r.room_number _ hnum
    (noLeadingWS_cons '|' _ (by decide))

theorem roomLine_eq_append (r : Room) :
    roomLine r = (r.room_number ++ '|' :: (joinChar ',' r.features ++ '|' ::
      (boolStr r.is_allocated ++ ['|']))) ++ r.customer_name := by
  simp [roomLine]

theorem roomLine_prefix_eq_append (r : Room) :
    r.room_number ++ '|' :: (joinChar ',' r.features ++ '|' ::
      (boolStr r.is_allocated ++ ['|']))
    = (r.room_number ++ '|' :: (joinChar ',' r.features ++ '|' ::
      boolStr r.is_allocated)) ++ ['|'] := by
  simp

theorem noLeadingWS_roomLine_reverse (r : Room) (h : wfRoom r) :
    noLeadingWS (roomLine r).reverse := by
  obtain ⟨-, -, -, -, -, hname⟩ := h
  rw [roomLine_eq_append, List.reverse_append]
  refine noLeadingWS_append _ _ hname ?_
  rw [roomLine_prefix_eq_append, List.reverse_append]
  simp only [List.reverse_singleton, List.singleton_append]
  exact noLeadingWS_cons '|' _ (by decide)

theorem decide_boolStr_eq (b : Bool) :
    decide (boolStr b = ['T', 'r', 'u', 'e']) = b := by
  cases b <;> rfl

theorem splitOnChar_roomLine (r : Room) (h : wfRoom r) :
    splitOnChar '|' (roomLine r) =
      [r.room_number, joinChar ',' r.features, boolStr r.is_allocated,
       r.customer_name] := by
  obtain ⟨⟨⟨hp1, -⟩, hp2, hp3, -⟩, -, -, -, -, -⟩ := h
  have hjoin : '|' ∉ joinChar ',' r.features :=
    not_mem_joinChar '|' ',' (by decide) r.features (fun f hf => (hp2 f hf).1)
  rw [roomLine, splitOnChar_append '|' _ _ hp1,
    splitOnChar_append '|' _ _ hjoin,
    splitOnChar_append '|' _ _ (not_mem_boolStr_pipe r.is_allocated),
    splitOnChar_of_not_mem '|' _ hp3]

theorem parseLine_roomLine (r : Room) (h : wfRoom r) :
    parseLine (roomLine r ++ ['\n']) = some r := by
  have hstrip : pyStrip (roomLine r ++ ['\n']) = roomLine r :=
    pyStrip_append_newline _ (noLeadingWS_roomLine r h)
      (noLeadingWS_roomLine_reverse r h)
  have hsplit := splitOnChar_roomLine r h
  obtain ⟨⟨-, hfeat, -⟩, hfne, -, -, -, -⟩ := h
  rw [parseLine, hstrip, hsplit]
  simp only [Option.some.injEq]
  have hfeats : splitOnChar ',' (joinChar ',' r.features) = r.features :=
    splitOnChar_joinChar ',' r.features hfne (fun f hf => (hfeat f hf).2)
  cases r with
  | mk num fs alloc name =>
    simp_all [decide_boolStr_eq]

theorem save_data_not_mem_cr (rooms : List Room) (h : ∀ r ∈ rooms, wfRoom r) :
    '\x0d' ∉ save_data rooms := by
  induction rooms with
  | nil => simp [save_data]
  | cons r rs ih =>
    have hr := roomLine_not_mem_cr r (h r (by simp))
    have ih' := ih (fun x hx => h x (List.mem_cons_of_mem r hx))
    simp only [save_data, List.mem_append, List.mem_cons]
    rintro (hc | hc | hc)
    · exact hr hc
    · exact absurd hc (by decide)
    · exact ih' hc

theorem load_lines_splitLines_save (rooms : List Room)
    (h : ∀ r ∈ rooms, wfRoom r) :
    ∀ acc, load_lines acc (splitLinesNL (save_data rooms)) = acc ++ rooms := by
  induction rooms with
  | nil => intro acc; simp [save_data, splitLinesNL, load_lines]
  | cons r rs ih =>
    intro acc
    have hr := h r (by simp)
    have hlines : splitLinesNL (save_data (r :: rs)) =
        (roomLine r ++ ['\n']) :: splitLinesNL (save_data rs) := by
      rw [save_data]
      exact splitLinesNL_append _ _ (roomLine_not_mem_newline r hr)
    rw [hlines]
    simp only [load_lines, parseLine_roomLine r hr]
    have := ih (fun x hx => h x (List.mem_cons_of_mem r hx)) (acc ++ [r])
    rw [this]
    simp

theorem load_data_save_data (rooms : List Room) (h : ∀ r ∈ rooms, wfRoom r) :
    ∀ acc, load_data (save_data rooms) acc = acc ++ rooms := by
  intro acc
  rw [load_data, pyReadLines,
    pyTranslateNewlines_of_not_mem (save_data rooms) (save_data_not_mem_cr rooms h)]
  exact load_lines_splitLines_save rooms h acc

/-! ### C1: save/load round trip -/

/-- C1 counterexample: a room with an empty feature list satisfies the
claim's no-delimiter condition, yet saving and loading it on a fresh store
does not reproduce it (Python `"".split(',')` is `[""]`, not `[]`, so the
features come back as `[""]`). -/
theorem round_trip_cex :
    claimNoDelims ⟨['1'], [], false, []⟩ ∧
    load_data (save_data [⟨['1'], [], false, []⟩]) [] ≠ [⟨['1'], [], false, []⟩] := by
  decide

/-- C1 (amended): saving a sequence of rooms and loading it back on a fresh
store reproduces every room in all four fields, provided each room's fields
contain no `|` or `,` (the claim's condition) and moreover each room has a
non-empty feature list, no field contains a newline or carriage return
(text mode treats both as line endings), the room number does not start
with whitespace and the customer name does not end with whitespace, in the
full Unicode sense of Python `str.strip()`. -/
theorem round_trip_of_wf (rooms : List Room) (h : ∀ r ∈ rooms, wfRoom r) :
    load_data (save_data rooms) [] = rooms := by
  simpa using load_data_save_data rooms h []

theorem round_trip_witness :
    load_data (save_data [⟨['1', '0', '1'], [['w', 'i', 'f', 'i'], ['a', 'c']],
      true, ['B', 'o', 'b']⟩]) []
    = [⟨['1', '0', '1'], [['w', 'i', 'f', 'i'], ['a', 'c']],
      true, ['B', 'o', 'b']⟩] :=
  round_trip_of_wf _ (by decide)

/-! ### C4: a malformed line stops loading -/

theorem parseLine_eq_none_iff (line : Str) :
    parseLine line = none ↔ (splitOnChar '|' (pyStrip line)).length < 4 := by
  unfold parseLine
  rcases h : splitOnChar '|' (pyStrip line) with - | ⟨p0, - | ⟨p1, - | ⟨p2, - | ⟨p3, ps⟩⟩⟩⟩ <;>
    simp

theorem load_lines_stops (bad : Str) (rest : List Str)
    (hbad : parseLine bad = none) :
    ∀ (gs : List Str) (acc : List Room), (∀ g ∈ gs, (parseLine g).isSome) →
      load_lines acc (gs ++ bad :: rest) = acc ++ gs.filterMap parseLine := by
  intro gs
  induction gs with
  | nil =>
    intro acc _
    simp [load_lines, hbad]
  | cons g gs ih =>
    intro acc hgood
    have hg := hgood g (by simp)
    rcases hsome : parseLine g with - | r
    · rw [hsome] at hg
      simp at hg
    · simp only [List.cons_append, load_lines, hsome, List.append_eq]
      rw [ih (acc ++ [r]) (fun x hx => hgood x (List.mem_cons_of_mem g hx))]
      simp [List.filterMap_cons, hsome]

/-- C4: during `load_data`, a structurally malformed line (fewer than four
`|`-separated fields) fails to parse, and it stops the loading of all
subsequent lines of that call: the rooms parsed from the lines before it
remain loaded (appended to the rooms already in memory), and neither the
malformed line nor any later line contributes a room. -/
theorem malformed_line_stops_load (content : Str) (acc : List Room)
    (gs : List Str) (bad : Str) (rest : List Str)
    (hsplit : pyReadLines content = gs ++ bad :: rest)
    (hbad : (splitOnChar '|' (pyStrip bad)).length < 4)
    (hgood : ∀ g ∈ gs, (parseLine g).isSome) :
    parseLine bad = none ∧
    load_data content acc = acc ++ gs.filterMap parseLine := by
  have hnone := (parseLine_eq_none_iff bad).2 hbad
  refine ⟨hnone, ?_⟩
  rw [load_data, hsplit]
  exact load_lines_stops bad rest hnone gs acc hgood

theorem malformed_line_witness :
    parseLine "bad\n".toList = none ∧
    load_data "1|a|True|Bob\nbad\n2|b|False|x\n".toList [] =
      [] ++ (["1|a|True|Bob\n".toList].filterMap parseLine) :=
  malformed_line_stops_load "1|a|True|Bob\nbad\n2|b|False|x\n".toList []
    ["1|a|True|Bob\n".toList] "bad\n".toList ["2|b|False|x\n".toList]
    (by decide) (by decide) (by decide)

/-! ### C3: the allocation invariant -/

theorem allocateList_preserves (number cname : Str) (hc : cname ≠ []) :
    ∀ rooms : List Room, (∀ r ∈ rooms, roomInv r) →
      ∀ r ∈ (allocateList number cname rooms).1, roomInv r
  | [], _ => by simp [allocateList]
  | x :: xs, h => by
    intro r hr
    by_cases hn : x.room_number = number
    · by_cases ha : x.is_allocated
      · simp only [allocateList, if_pos hn, if_pos ha] at hr
        exact h r hr
      · simp only [allocateList, if_pos hn, if_neg ha] at hr
        rcases List.mem_cons.1 hr with rfl | hr
        · exact ⟨fun _ => hc, fun hf => by simp at hf⟩
        · exact h r (List.mem_cons_of_mem x hr)
    · simp only [allocateList, if_neg hn] at hr
      rcases List.mem_cons.1 hr with rfl | hr
      · exact h r (by simp)
      · exact allocateList_preserves number cname hc xs
          (fun y hy => h y (List.mem_cons_of_mem x hy)) r hr

theorem billList_preserves (number : Str) :
    ∀ rooms : List Room, (∀ r ∈ rooms, roomInv r) →
      ∀ r ∈ (billList number rooms).1, roomInv r
  | [], _ => by simp [billList]
  | x :: xs, h => by
    intro r hr
    by_cases hn : x.room_number = number ∧ x.is_allocated = true
    · simp only [billList, if_pos hn] at hr
      rcases List.mem_cons.1 hr with rfl | hr
      · exact ⟨fun hf => by simp at hf, fun _ => rfl⟩
      · exact h r (List.mem_cons_of_mem x hr)
    · simp only [billList, if_neg hn] at hr
      rcases List.mem_cons.1 hr with rfl | hr
      · exact h r (by simp)
      · exact billList_preserves number xs
          (fun y hy => h y (List.mem_cons_of_mem x hy)) r hr

theorem allocate_room_rooms (number cname : Str) (st : Store) :
    (allocate_room number cname st).1.rooms = (allocateList number cname st.rooms).1 := by
  simp only [allocate_room]
  split <;> rfl

theorem bill_and_deallocate_rooms (number : Str) (st : Store) :
    (bill_and_deallocate number st).1.rooms = (billList number st.rooms).1 := by
  simp only [bill_and_deallocate]
  split <;> rfl

theorem applyCall_preserves (st : Store) (c : Call)
    (h : ∀ r ∈ st.rooms, roomInv r) (hc : callNameOk c) :
    ∀ r ∈ (applyCall st c).rooms, roomInv r := by
  cases c with
  | alloc n cn =>
    simp only [applyCall, allocate_room_rooms]
    exact allocateList_preserves n cn hc st.rooms h
  | bill n =>
    simp only [applyCall, bill_and_deallocate_rooms]
    exact billList_preserves n st.rooms h

/-- C3 counterexample: from a store whose single room is unallocated with an
empty customer name (so the invariant holds initially), one `allocate_room`
call with the empty string as customer name yields a room with
`is_allocated = true` and `customer_name = ""`, violating the invariant. -/
theorem alloc_dealloc_invariant_cex :
    (∀ r ∈ (⟨[⟨['1'], [['f']], false, []⟩], [], []⟩ : Store).rooms, roomInv r) ∧
    ¬ ∀ r ∈ (applyCalls ⟨[⟨['1'], [['f']], false, []⟩], [], []⟩
        [Call.alloc ['1'] []]).rooms, roomInv r := by
  decide

/-- C3 (amended): for every store whose rooms all satisfy the invariant
initially, and every sequence of `allocate_room` / `bill_and_deallocate`
calls in which every allocate call passes a non-empty customer name, every
room of the resulting store satisfies: `is_allocated = true` implies the
customer name is non-empty, and `is_allocated = false` implies the customer
name is empty. -/
theorem alloc_dealloc_invariant (st : Store) (cs : List Call)
    (h0 : ∀ r ∈ st.rooms, roomInv r) (h1 : ∀ c ∈ cs, callNameOk c) :
    ∀ r ∈ (applyCalls st cs).rooms, roomInv r := by
  induction cs generalizing st with
  | nil => simpa [applyCalls] using h0
  | cons c cs ih =>
    have step := applyCall_preserves st c h0 (h1 c (by simp))
    have := ih (applyCall st c) step (fun x hx => h1 x (List.mem_cons_of_mem c hx))
    simpa [applyCalls, List.foldl_cons] using this

theorem alloc_dealloc_invariant_witness :
    roomInv ⟨['1'], [['f']], false, []⟩ :=
  alloc_dealloc_invariant ⟨[⟨['1'], [['f']], false, []⟩], [], []⟩
    [Call.alloc ['1'] ['A', 'l'], Call.bill ['1']] (by decide) (by decide)
    ⟨['1'], [['f']], false, []⟩ (by decide)

/-! ### C5: allocating an already-allocated room -/

theorem allocateList_of_find_allocated (number cname : Str) :
    ∀ (rooms : List Room) (r : Room),
      rooms.find? (fun x => decide (x.room_number = number)) = some r →
      r.is_allocated = true →
      allocateList number cname rooms = (rooms, .alreadyAllocated)
  | [], r, hfind, _ => by simp [List.find?] at hfind
  | x :: xs, r, hfind, halloc => by
    by_cases hn : x.room_number = number
    · rw [List.find?_cons_of_pos _ (by simpa using hn)] at hfind
      have hx : x = r := by simpa using hfind
      subst hx
      simp only [allocateList, if_pos hn, if_pos halloc]
    · rw [List.find?_cons_of_neg _ (by simpa using hn)] at hfind
      have ih := allocateList_of_find_allocated number cname xs r hfind halloc
      simp only [allocateList, if_neg hn, ih]

/-- C5: when the first room whose number matches is already allocated,
`allocate_room` reports the conflict and leaves the whole store (rooms,
file content, backups) unchanged, whatever customer name is requested;
rooms after the first match are never touched. -/
theorem allocate_conflict (st : Store) (number cname : Str) (r : Room)
    (hfind : st.rooms.find? (fun x => decide (x.room_number = number)) = some r)
    (halloc : r.is_allocated = true) :
    allocate_room number cname st = (st, AllocOutcome.alreadyAllocated) := by
  have hl := allocateList_of_find_allocated number cname st.rooms r hfind halloc
  simp only [allocate_room, hl]
  rfl

theorem allocate_conflict_witness :
    allocate_room "101".toList "Bob".toList
      ⟨[⟨"101".toList, [['f']], true, "Alice".toList⟩], [], []⟩
    = (⟨[⟨"101".toList, [['f']], true, "Alice".toList⟩], [], []⟩,
       AllocOutcome.alreadyAllocated) :=
  allocate_conflict _ _ _ ⟨"101".toList, [['f']], true, "Alice".toList⟩
    (by decide) (by decide)

/-! ### C6: billing and deallocating -/

theorem billList_of_find_none (number : Str) :
    ∀ rooms : List Room,
      rooms.find? (fun x => decide (x.room_number = number ∧ x.is_allocated)) = none →
      billList number rooms = (rooms, .notFoundOrNotAllocated)
  | [], _ => by simp [billList]
  | x :: xs, hfind => by
    by_cases hx : x.room_number = number ∧ x.is_allocated = true
    · rw [List.find?_cons_of_pos _ (by simpa using hx)] at hfind
      exact absurd hfind (by simp)
    · rw [List.find?_cons_of_neg _ (by simpa using hx)] at hfind
      have ih := billList_of_find_none number xs hfind
      simp only [billList, if_neg hx, ih]

theorem billList_of_split (number : Str) :
    ∀ (l1 : List Room) (r : Room) (l2 : List Room),
      (∀ x ∈ l1, ¬(x.room_number = number ∧ x.is_allocated = true)) →
      r.room_number = number → r.is_allocated = true →
      billList number (l1 ++ r :: l2) =
        (l1 ++ { r with is_allocated := false, customer_name := [] } :: l2,
         .deallocated)
  | [], r, l2, _, hn, ha => by
    simp only [List.nil_append, billList, if_pos (And.intro hn ha)]
  | x :: l1, r, l2, h1, hn, ha => by
    have hx := h1 x (by simp)
    have ih := billList_of_split number l1 r l2
      (fun y hy => h1 y (List.mem_cons_of_mem x hy)) hn ha
    simp only [List.cons_append, billList, if_neg hx, List.append_eq, ih]

/-- C6: if no room has both the given number and `is_allocated = true`,
`bill_and_deallocate` reports not-found-or-not-allocated and leaves the
whole store unchanged (in particular, no file write); if such a room
exists, the first one is deallocated (allocation flag cleared, customer
name emptied), the other rooms are untouched, and the new room list is
persisted to the file. -/
theorem bill_and_deallocate_spec (st : Store) (number : Str) :
    (st.rooms.find? (fun x => decide (x.room_number = number ∧ x.is_allocated)) = none →
      bill_and_deallocate number st = (st, BillOutcome.notFoundOrNotAllocated)) ∧
    (∀ (l1 : List Room) (r : Room) (l2 : List Room), st.rooms = l1 ++ r :: l2 →
      (∀ x ∈ l1, ¬(x.room_number = number ∧ x.is_allocated = true)) →
      r.room_number = number → r.is_allocated = true →
      bill_and_deallocate number st =
        ({ st with
            rooms := l1 ++ { r with is_allocated := false, customer_name := [] } :: l2,
            fileContent :=
              save_data (l1 ++ { r with is_allocated := false, customer_name := [] } :: l2) },
         BillOutcome.deallocated)) := by
  constructor
  · intro hfind
    have hl := billList_of_find_none number st.rooms hfind
    simp only [bill_and_deallocate, hl]
    rfl
  · intro l1 r l2 hsplit h1 hn ha
    have hl := billList_of_split number l1 r l2 h1 hn ha
    simp only [bill_and_deallocate, hsplit, hl]
    rfl

theorem bill_and_deallocate_witness :
    bill_and_deallocate ['9'] ⟨[⟨['9'], [['f']], false, []⟩], ['z'], []⟩
      = (⟨[⟨['9'], [['f']], false, []⟩], ['z'], []⟩,
         BillOutcome.notFoundOrNotAllocated) ∧
    bill_and_deallocate ['5'] ⟨[⟨['5'], [['f']], true, ['A']⟩], [], []⟩
      = (⟨[⟨['5'], [['f']], false, []⟩],
          save_data [⟨['5'], [['f']], false, []⟩], []⟩,
         BillOutcome.deallocated) :=
  ⟨(bill_and_deallocate_spec ⟨[⟨['9'], [['f']], false, []⟩], ['z'], []⟩ ['9']).1
      (by decide),
   (bill_and_deallocate_spec ⟨[⟨['5'], [['f']], true, ['A']⟩], [], []⟩ ['5']).2
      [] ⟨['5'], [['f']], true, ['A']⟩ [] (by decide) (by decide) (by decide) (by decide)⟩

/-! ### C7: deleting a room -/

/-- C7: `delete_room` removes every room whose number equals the given one
(not only the first match); the surviving rooms are exactly the
non-matching ones, kept in their relative order (the result is a sublist of
the original); and when no room matches, the room sequence is left exactly
as it was, with no error. -/
theorem delete_room_spec (st : Store) (number : Str) :
    (∀ r ∈ (delete_room number st).1.rooms, r.room_number ≠ number) ∧
    (delete_room number st).1.rooms.Sublist st.rooms ∧
    (∀ r ∈ st.rooms, r.room_number ≠ number → r ∈ (delete_room number st).1.rooms) ∧
    ((∀ r ∈ st.rooms, r.room_number ≠ number) →
      (delete_room number st).1.rooms = st.rooms) := by
  refine ⟨?_, ?_, ?_, ?_⟩
  · intro r hr
    have := (List.mem_filter.1 hr).2
    simpa using this
  · exact List.filter_sublist st.rooms
  · intro r hr hne
    exact List.mem_filter.2 ⟨hr, by simpa using hne⟩
  · intro h
    exact List.filter_eq_self.2 (fun r hr => by simpa using h r hr)

theorem delete_room_witness :
    ⟨['7'], [['g']], false, []⟩ ∈
      (delete_room ['1']
        ⟨[⟨['1'], [['f']], false, []⟩, ⟨['7'], [['g']], false, []⟩,
          ⟨['1'], [['h']], false, []⟩], [], []⟩).1.rooms :=
  (delete_room_spec _ ['1']).2.2.1 ⟨['7'], [['g']], false, []⟩ (by decide) (by decide)

/-! ### C8: adding a room -/

/-- C8: `add_room` with a non-list `features` argument reports the type
error and leaves the store completely unchanged; with a list argument it
appends exactly one new room (unallocated, empty customer name) at the end
of the sequence and persists, with no uniqueness check on the room number
(the statement holds for every store, including stores already containing
the same number). -/
theorem add_room_spec (st : Store) (number : Str) (fs : List Str) :
    add_room number FeaturesArg.notAList st = (st, AddOutcome.typeError) ∧
    (add_room number (FeaturesArg.ofList fs) st).1.rooms =
      st.rooms ++ [⟨number, fs, false, []⟩] ∧
    (add_room number (FeaturesArg.ofList fs) st).1.fileContent =
      save_data (st.rooms ++ [⟨number, fs, false, []⟩]) ∧
    (add_room number (FeaturesArg.ofList fs) st).1.backups = st.backups ∧
    (add_room number (FeaturesArg.ofList fs) st).2 = AddOutcome.added :=
  ⟨rfl, rfl, rfl, rfl, rfl⟩

/-! ### C9: saving twice is idempotent -/

/-- C9: the file content written by `save_data` is a function of the
in-memory room sequence alone, and saving twice in a row with no
intervening mutation writes byte-identical content both times (the second
save sees the same rooms, so it writes the same bytes). -/
theorem save_twice_identical (st : Store) :
    (save_room_allocation_to_file st).fileContent = save_data st.rooms ∧
    (save_room_allocation_to_file st).rooms = st.rooms ∧
    (save_room_allocation_to_file (save_room_allocation_to_file st)).fileContent =
      (save_room_allocation_to_file st).fileContent :=
  ⟨rfl, rfl, rfl⟩

/-! ### C10: delete always writes, bill does not -/

/-- C10: when no room matches the given number, `delete_room` still
rewrites the backing file (its content becomes the serialization of the
unchanged room sequence) and still reports the success message, while
`bill_and_deallocate` on the same store performs no file write at all and
reports not-found. -/
theorem delete_no_match_still_writes (st : Store) (number : Str)
    (h : ∀ r ∈ st.rooms, r.room_number ≠ number) :
    (delete_room number st).1.fileContent = save_data st.rooms ∧
    (delete_room number st).1.rooms = st.rooms ∧
    (delete_room number st).2 =
      ['R', 'o', 'o', 'm', ' '] ++ number ++ " is successfully deleted.".toList ∧
    (bill_and_deallocate number st).1.fileContent = st.fileContent ∧
    (bill_and_deallocate number st).2 = BillOutcome.notFoundOrNotAllocated := by
  have hfilter : st.rooms.filter (fun r => decide (r.room_number ≠ number)) = st.rooms :=
    List.filter_eq_self.2 (fun r hr => by simpa using h r hr)
  have hfind : st.rooms.find?
      (fun x => decide (x.room_number = number ∧ x.is_allocated)) = none :=
    List.find?_eq_none.2 (fun x hx => by simp [h x hx])
  have hbill := billList_of_find_none number st.rooms hfind
  refine ⟨?_, ?_, rfl, ?_, ?_⟩
  · simp only [delete_room, hfilter]
  · simp only [delete_room, hfilter]
  · simp only [bill_and_deallocate, hbill]
    rfl
  · simp only [bill_and_deallocate, hbill]
    rfl

theorem delete_no_match_witness :
    (delete_room ['9'] ⟨[⟨['5'], [['f']], false, []⟩], ['z'], []⟩).1.fileContent =
      save_data [⟨['5'], [['f']], false, []⟩] ∧
    (bill_and_deallocate ['9']
      ⟨[⟨['5'], [['f']], false, []⟩], ['z'], []⟩).1.fileContent = ['z'] := by
  have := delete_no_match_still_writes ⟨[⟨['5'], [['f']], false, []⟩], ['z'], []⟩
    ['9'] (by decide)
  exact ⟨this.1, this.2.2.2.1⟩

/-! ### C2: backup then save -/

theorem save_data_ne_nil (rooms : List Room) (h : rooms ≠ []) :
    save_data rooms ≠ [] := by
  cases rooms with
  | nil => exact absurd rfl h
  | cons r rs => simp [save_data]

/-- C2: `backup_file` records the backing file's current content under the
timestamped backup name and truncates the backing file to empty, leaving
the in-memory room sequence (and earlier backups) unchanged; a subsequent
`save_room_allocation_to_file` leaves the backing file containing exactly
the serialization of the current in-memory rooms — not empty whenever
there is at least one room. -/
theorem backup_then_save (ts : Str) (st : Store) (h : st.rooms ≠ []) :
    (backup_file ts st).rooms = st.rooms ∧
    (backup_file ts st).fileContent = [] ∧
    (backup_file ts st).backups = st.backups ++ [(backupName ts, st.fileContent)] ∧
    (save_room_allocation_to_file (backup_file ts st)).fileContent = save_data st.rooms ∧
    (save_room_allocation_to_file (backup_file ts st)).fileContent ≠ [] :=
  ⟨rfl, rfl, rfl, rfl, save_data_ne_nil st.rooms h⟩

theorem backup_then_save_witness :
    (save_room_allocation_to_file (backup_file ['t']
      ⟨[⟨['5'], [['f']], false, []⟩], "5|f|False|\n".toList, []⟩)).fileContent ≠ [] :=
  (backup_then_save ['t'] ⟨[⟨['5'], [['f']], false, []⟩], "5|f|False|\n".toList, []⟩
    (by decide)).2.2.2.2

end Hotel
